import Mathlib

/-!
# Verification of the kbservice ingestion/retrieval core

A shallow embedding, in Lean 4, of the core of the `kbservice` repository:
the text splitters (`document/chunk_splitter.go`, `document/token_splitter.go`),
the document-level splitting helpers (`document/splitter.go`), the vector-store
facade (`vectorstore/vectorstore.go`), the pgvector backend
(`adapters/.../pgvector.go`), and the sync engine (`kb/kb.go`).

Modelling conventions:
  * Go `string` is modelled by Lean `String`; character positions stand in for
    Go byte positions (they agree on ASCII inputs, which is all the claims use).
  * Go `int` is modelled by `Int`; lengths are `Nat` and are cast where compared.
  * Go `float32` values (vector components, scores) are modelled by `Rat`;
    no claim depends on floating-point rounding.
  * Go `map[string]interface{}` is modelled two ways: as an association list
    (`Metadata`) where only contents matter, and - for the aliasing claim - as
    an address into an explicit `Heap` of maps, since Go maps are references.
  * Errors are `Except`; external collaborators (embedder, tokenizer, SQL
    backend) are function parameters.
-/

/-- A metadata value: a Go `interface{}` holding either a string or any
non-string value (`other`).  A Go type assertion `v.(string)` yields the
string, or `""` for `other`/missing values. -/
inductive MVal where
  | str (s : String)
  | other
deriving DecidableEq, Repr

/-- Go type assertion `v.(string)` with its zero-value default. -/
def MVal.asString : MVal → String
  | .str s => s
  | .other => ""

/-- Content-level model of a Go `map[string]interface{}`. -/
abbrev Metadata := List (String × MVal)

/-- Map lookup `m[k]` (comma-ok form: `none` when the key is absent). -/
def Metadata.lookupV (m : Metadata) (k : String) : Option MVal :=
  (m.find? (fun kv => kv.1 == k)).map (·.2)

/-- Map assignment `m[k] = v`: replaces the binding in place, or appends. -/
def Metadata.setKey (m : Metadata) (k : String) (v : MVal) : Metadata :=
  if (m.find? (fun kv => kv.1 == k)).isSome then
    m.map (fun kv => if kv.1 == k then (kv.1, v) else kv)
  else m ++ [(k, v)]

/-- A vector of float32 components (modelled as rationals). -/
abbrev Vec := List Rat

/-! ## Character/separator splitter (`document/chunk_splitter.go`) -/

/-- `CharacterSplitter` (chunk_splitter.go lines 5-9). -/
structure CharacterSplitter where
  chunkSize : Int
  chunkOverlap : Int
  separator : String
deriving DecidableEq, Repr

/-- `NewCharacterSplitter` (chunk_splitter.go lines 11-21): no validation of
any parameter; an empty separator is replaced by a single space. -/
def NewCharacterSplitter (chunkSize chunkOverlap : Int) (separator : String) :
    CharacterSplitter :=
  { chunkSize := chunkSize
    chunkOverlap := chunkOverlap
    separator := if separator = "" then " " else separator }

/-- The ASCII fragment of Go `unicode.IsSpace`, used by `strings.TrimSpace`.
(The full Go predicate also accepts some non-ASCII whitespace; the claims only
exercise ASCII.) -/
def isSpaceChar (c : Char) : Bool :=
  c == ' ' || c == '\t' || c == '\n' || c == Char.ofNat 11 ||
    c == Char.ofNat 12 || c == '\r'

/-- Go `strings.TrimSpace`, on character lists: drop whitespace from the
front, then from the back. -/
def trimSpaceList (l : List Char) : List Char :=
  ((l.dropWhile isSpaceChar).reverse.dropWhile isSpaceChar).reverse

/-- Go `strings.TrimSpace` on strings. -/
def goTrimSpace (s : String) : String :=
  ⟨trimSpaceList s.toList⟩

/-- One scanning step of Go `strings.Split` at the character level: emit the
collected piece at each occurrence of the (non-empty) separator.  `fuel`
bounds the recursion; every step consumes at least one character, so
`text.length + 1` units always suffice. -/
def goSplitAux (sep : List Char) : Nat → List Char → List Char → List (List Char)
  | 0, l, cur => [cur.reverse ++ l]
  | _ + 1, [], cur => [cur.reverse]
  | fuel + 1, c :: rest, cur =>
    if sep.isPrefixOf (c :: rest) then
      cur.reverse :: goSplitAux sep fuel ((c :: rest).drop sep.length) []
    else goSplitAux sep fuel rest (c :: cur)

/-- Go `strings.Split(text, sep)`: split around every non-overlapping
occurrence of `sep`; with an empty separator, split after each character. -/
def goSplit (text sep : String) : List String :=
  if sep = "" then text.toList.map (fun c => String.mk [c])
  else (goSplitAux sep.toList (text.toList.length + 1) text.toList []).map String.mk

/-- The buffer seeded after closing a chunk (chunk_splitter.go lines 37-46):
the trailing `chunkOverlap` characters of the closed buffer when overlap is
positive, the empty buffer otherwise. -/
def overlapSeed (cs : CharacterSplitter) (current : String) : String :=
  if cs.chunkOverlap > 0 then
    if (current.length : Int) > cs.chunkOverlap then
      current.drop (current.length - cs.chunkOverlap.toNat)
    else current
  else ""

/-- Appending the next piece to the buffer (chunk_splitter.go lines 50-53):
a separator first if the buffer is non-empty, then the piece. -/
def appendPart (cs : CharacterSplitter) (current p : String) : String :=
  (if current.length > 0 then current ++ cs.separator else current) ++ p

/-- The accumulation loop of `CharacterSplitter.SplitText`
(chunk_splitter.go lines 32-54), one step per element of `parts`, the nested
`if`s flattened: the buffer is flushed (trimmed) exactly when adding the next
piece would overflow `chunkSize` and the buffer is non-empty; either way the
piece is then appended.  State: the chunks emitted so far and the buffer. -/
def charSplitLoop (cs : CharacterSplitter) :
    List String → List String → String → List String × String
  | [], chunks, current => (chunks, current)
  | p :: ps, chunks, current =>
    if (current.length : Int) + (p.length : Int) + 1 > cs.chunkSize ∧
        current.length > 0 then
      charSplitLoop cs ps (chunks ++ [goTrimSpace current])
        (appendPart cs (overlapSeed cs current) p)
    else
      charSplitLoop cs ps chunks (appendPart cs current p)

/-- `CharacterSplitter.SplitText` (chunk_splitter.go lines 23-61).  The Go
function's `error` result is always `nil`, so the model returns the chunk
list directly. -/
def CharacterSplitter.SplitText (cs : CharacterSplitter) (text : String) :
    List String :=
  if text = "" then []
  else
    let res := charSplitLoop cs (goSplit text cs.separator) [] ""
    if res.2.length > 0 then res.1 ++ [goTrimSpace res.2] else res.1

/-! ## Token-window splitter (`document/token_splitter.go`) -/

/-- An error from the splitter package (`SplitterError`); the wrapped Go
`error` is modelled by its message text. -/
structure SplitterError where
  op : String
  message : String
  errText : String
deriving DecidableEq, Repr

/-- A tiktoken encoding: tokenize/detokenize functions.  The concrete
encodings are external collaborators; they are kept abstract. -/
structure Encoding where
  encode : String → List Nat
  decode : List Nat → String

/-- `getEncodingForModel` (token_splitter.go lines 18-57): a static lookup
table keyed by model-name prefixes and exact matches. -/
def getEncodingForModel (model : String) : String :=
  if model.startsWith "gpt-4o" then "o200k_base"
  else if model.startsWith "gpt-4" || model.startsWith "gpt-3.5-turbo" ||
      model == "text-embedding-ada-002" || model == "text-embedding-3-small" ||
      model == "text-embedding-3-large" then "cl100k_base"
  else if model.startsWith "code-" || model == "text-davinci-002" ||
      model == "text-davinci-003" then "p50k_base"
  else if model.startsWith "text-davinci-001" || model.startsWith "text-curie-001" ||
      model.startsWith "text-babbage-001" || model.startsWith "text-ada-001" ||
      model == "davinci" || model == "curie" || model == "babbage" ||
      model == "ada" || model.startsWith "text-similarity-" ||
      model.startsWith "text-search-" || model.startsWith "code-search-" then
    "r50k_base"
  else "cl100k_base"

/-- `TiktokenSplitter` (token_splitter.go lines 10-15). -/
structure TiktokenSplitter where
  tokensPerChunk : Int
  chunkOverlap : Int
  model : String
  encoding : Encoding

/-- `NewTiktokenSplitter` (token_splitter.go lines 59-101).  The call to
`tiktoken.GetEncoding` is the abstract collaborator `getEncoding`; it is only
reached after all three parameter validations pass. -/
def NewTiktokenSplitter (getEncoding : String → Except SplitterError Encoding)
    (tokensPerChunk chunkOverlap : Int) (model : String) :
    Except SplitterError TiktokenSplitter :=
  if tokensPerChunk ≤ 0 then
    .error { op := "new_tiktoken_splitter"
             message := "tokensPerChunk must be positive"
             errText := s!"invalid tokensPerChunk: {tokensPerChunk}" }
  else if chunkOverlap < 0 then
    .error { op := "new_tiktoken_splitter"
             message := "chunkOverlap must be non-negative"
             errText := s!"invalid chunkOverlap: {chunkOverlap}" }
  else if chunkOverlap ≥ tokensPerChunk then
    .error { op := "new_tiktoken_splitter"
             message := "chunkOverlap must be less than tokensPerChunk"
             errText := s!"overlap {chunkOverlap} >= chunk size {tokensPerChunk}" }
  else
    match getEncoding (getEncodingForModel model) with
    | .error e =>
        .error { op := "new_tiktoken_splitter"
                 message := s!"failed to get {getEncodingForModel model} encoding for model {model}"
                 errText := e.errText }
    | .ok enc =>
        .ok { tokensPerChunk := tokensPerChunk, chunkOverlap := chunkOverlap
              model := model, encoding := enc }

/-- `tokens[start:end]` for the window: drop `start`, take `end - start`. -/
def tokenSlice (tokens : List Nat) (start e : Int) : List Nat :=
  (tokens.drop start.toNat).take (e - start).toNat

/-- The next window start computed at token_splitter.go line 144:
`start = end - ts.ChunkOverlap` where `end = min(start+tokensPerChunk, len)`. -/
def tiktokenNextStart (tokensPerChunk chunkOverlap : Int) (tokens : List Nat)
    (start : Int) : Int :=
  min (start + tokensPerChunk) (tokens.length : Int) - chunkOverlap

/-- The window loop of `TiktokenSplitter.SplitText` (token_splitter.go lines
121-148).  `remaining` counts the iterations the safety check still allows
(initially `maxIterations = len(tokens)`); reaching the loop head with
`remaining = 0` is the `iteration > maxIterations` infinite-loop error. -/
def splitTextLoop (tokensPerChunk chunkOverlap : Int) (decode : List Nat → String)
    (tokens : List Nat) :
    Int → Nat → List String → Except SplitterError (List String)
  | start, 0, chunks =>
    if start < (tokens.length : Int) then
      .error { op := "split_text"
               message := "infinite loop detected in token splitting"
               errText := s!"exceeded maximum iterations of {tokens.length}" }
    else .ok chunks
  | start, remaining + 1, chunks =>
    if start < (tokens.length : Int) then
      let e := min (start + tokensPerChunk) (tokens.length : Int)
      let chunk := decode (tokenSlice tokens start e)
      let chunks := chunks ++ [chunk]
      let start' := tiktokenNextStart tokensPerChunk chunkOverlap tokens start
      if e = (tokens.length : Int) || start' ≥ e then .ok chunks
      else splitTextLoop tokensPerChunk chunkOverlap decode tokens start'
        remaining chunks
    else .ok chunks

/-- `TiktokenSplitter.SplitText` (token_splitter.go lines 103-151). -/
def TiktokenSplitter.SplitText (ts : TiktokenSplitter) (text : String) :
    Except SplitterError (List String) :=
  if text = "" then .ok []
  else
    let tokens := ts.encoding.encode text
    if tokens.length = 0 then .ok []
    else splitTextLoop ts.tokensPerChunk ts.chunkOverlap ts.encoding.decode
      tokens 0 tokens.length []

/-! ## Document-level splitting helpers (`document/splitter.go`), content level

At the content level a Go map copy is indistinguishable from the original;
the aliasing structure of `copyMetadata` is modelled separately in the heap
model below. -/

/-- `document.Document` (document.go lines 4-7). -/
structure Doc where
  pageContent : String
  metadata : Metadata
deriving DecidableEq, Repr

/-- `ErrMetadataTextMismatch` (splitter errors, examples/basic/main.go
lines 137-142). -/
def ErrMetadataTextMismatch : SplitterError :=
  { op := "split_documents"
    message := "number of texts and metadata entries must match"
    errText := "" }

/-- The per-text loop of `CreateDocuments` (splitter.go lines 36-49):
split each text, then emit one document per chunk carrying a copy of the
text's metadata. -/
def createDocsLoop (split : String → Except SplitterError (List String)) :
    List (String × Metadata) → Except SplitterError (List Doc)
  | [] => .ok []
  | (t, m) :: rest => do
    let chunks ← split t
    let docs ← createDocsLoop split rest
    .ok (chunks.map (fun c => Doc.mk c m) ++ docs)

/-- `CreateDocuments` (splitter.go lines 22-52). -/
def CreateDocuments (split : String → Except SplitterError (List String))
    (texts : List String) (metadatas : List Metadata) :
    Except SplitterError (List Doc) :=
  let metadatas := if metadatas.length = 0 then texts.map (fun _ => ([] : Metadata))
    else metadatas
  if texts.length ≠ metadatas.length then .error ErrMetadataTextMismatch
  else createDocsLoop split (texts.zip metadatas)

/-- `SplitDocuments` (splitter.go lines 9-19). -/
def SplitDocuments (split : String → Except SplitterError (List String))
    (documents : List Doc) : Except SplitterError (List Doc) :=
  CreateDocuments split (documents.map (·.pageContent))
    (documents.map (·.metadata))

/-! ## Heap model of metadata maps, for the aliasing claim

Go maps are reference values: assigning a map to a field shares the map.
`GoVal` is a Go `interface{}` value whose nested maps are heap references;
a document's metadata field is itself an address. -/

/-- A heap address of a metadata map. -/
abbrev Addr := Nat

/-- A Go `interface{}` value: a scalar, or a reference to a nested map. -/
inductive GoVal where
  | prim (s : String)
  | ref (a : Addr)
deriving DecidableEq, Repr

/-- The entries of one Go map. -/
abbrev GoMap := List (String × GoVal)

/-- Go map assignment `m[k] = v` at the entry level. -/
def GoMap.setKey (m : GoMap) (k : String) (v : GoVal) : GoMap :=
  if (m.find? (fun kv => kv.1 == k)).isSome then
    m.map (fun kv => if kv.1 == k then (kv.1, v) else kv)
  else m ++ [(k, v)]

/-- Go map read `m[k]`. -/
def GoMap.lookupV (m : GoMap) (k : String) : Option GoVal :=
  (m.find? (fun kv => kv.1 == k)).map (·.2)

/-- A heap of metadata maps; the address of a map is its index, and
allocation appends. -/
structure Heap where
  maps : List GoMap
deriving DecidableEq, Repr

/-- Dereference an address (empty map for a dangling address). -/
def Heap.get (h : Heap) (a : Addr) : GoMap :=
  (h.maps.get? a).getD []

/-- Allocate a fresh map, returning the new heap and its address. -/
def Heap.alloc (h : Heap) (m : GoMap) : Heap × Addr :=
  (⟨h.maps ++ [m]⟩, h.maps.length)

/-- Overwrite the map at an address. -/
def Heap.setMap (h : Heap) (a : Addr) (m : GoMap) : Heap :=
  ⟨h.maps.set a m⟩

/-- Mutate one key of the map at an address: the Go statement
`metadataMap[k] = v`. -/
def Heap.writeKey (h : Heap) (a : Addr) (k : String) (v : GoVal) : Heap :=
  h.setMap a ((h.get a).setKey k v)

/-- A document whose metadata field is a map reference, as in Go. -/
structure DocH where
  pageContent : String
  metadata : Addr
deriving DecidableEq, Repr

/-- `copyMetadata` (splitter.go lines 54-60): allocate a fresh map and copy
the entries of the source map into it.  The entries are copied as values, so
a nested-map entry `ref a` still points at the shared map `a`: the copy is
shallow. -/
def copyMetadataH (h : Heap) (a : Addr) : Heap × Addr :=
  h.alloc (h.get a)

/-- The inner loop of `CreateDocuments` (splitter.go lines 42-48) in the heap
model: one fresh shallow copy of the source metadata per chunk. -/
def createChunksForDoc (h : Heap) (meta : Addr) :
    List String → Heap × List DocH
  | [] => (h, [])
  | c :: cs =>
    let h1 := (copyMetadataH h meta).1
    let a := (copyMetadataH h meta).2
    let rest := createChunksForDoc h1 meta cs
    (rest.1, ⟨c, a⟩ :: rest.2)

/-- The per-text loop of `CreateDocuments` (splitter.go lines 36-49) in the
heap model. -/
def createDocsLoopH (split : String → Except SplitterError (List String)) :
    Heap → List (String × Addr) → Except SplitterError (Heap × List DocH)
  | h, [] => .ok (h, [])
  | h, (t, m) :: rest =>
    match split t with
    | .error e => .error e
    | .ok chunks =>
      let stepRes := createChunksForDoc h m chunks
      match createDocsLoopH split stepRes.1 rest with
      | .error e => .error e
      | .ok tailRes => .ok (tailRes.1, stepRes.2 ++ tailRes.2)

/-- Allocate one fresh empty map per text: the
`metadatas[i] = make(map[string]interface{})` loop of `CreateDocuments`
(splitter.go lines 23-28). -/
def allocEmpties (h : Heap) : Nat → Heap × List Addr
  | 0 => (h, [])
  | n + 1 =>
    let rest := allocEmpties (h.alloc []).1 n
    (rest.1, (h.alloc []).2 :: rest.2)

/-- `CreateDocuments` (splitter.go lines 22-52) in the heap model. -/
def CreateDocumentsH (split : String → Except SplitterError (List String))
    (h : Heap) (texts : List String) (metadatas : List Addr) :
    Except SplitterError (Heap × List DocH) :=
  let init := if metadatas.length = 0 then allocEmpties h texts.length
    else (h, metadatas)
  if texts.length ≠ init.2.length then .error ErrMetadataTextMismatch
  else createDocsLoopH split init.1 (texts.zip init.2)

/-- `SplitDocuments` (splitter.go lines 9-19) in the heap model. -/
def SplitDocumentsH (split : String → Except SplitterError (List String))
    (h : Heap) (documents : List DocH) :
    Except SplitterError (Heap × List DocH) :=
  CreateDocumentsH split h (documents.map (·.pageContent))
    (documents.map (·.metadata))

/-- `TiktokenSplitter.SplitDocuments` (token_splitter.go lines 153-177) in
the heap model: each chunk's document is built with `Metadata: doc.Metadata`,
i.e. the chunk's metadata field is the same map reference as the source
document's - no copy at all. -/
def TiktokenSplitDocumentsH (splitText : String → Except SplitterError (List String))
    (h : Heap) : List DocH → Except SplitterError (Heap × List DocH)
  | [] => .ok (h, [])
  | doc :: rest =>
    match splitText doc.pageContent with
    | .error e =>
        .error { op := "split_documents"
                 message := "failed to split document text"
                 errText := e.message }
    | .ok chunks =>
        match TiktokenSplitDocumentsH splitText h rest with
        | .error e => .error e
        | .ok tailRes =>
            .ok (tailRes.1, chunks.map (fun c => DocH.mk c doc.metadata) ++ tailRes.2)

/-! ## Vector-store facade (`vectorstore/vectorstore.go`) -/

/-- `vectorstore.Document` (vectorstore.go lines 14-18): a chunk with a
similarity score. -/
structure VSDoc where
  pageContent : String
  metadata : Metadata
  score : Rat
deriving DecidableEq, Repr

/-- `FromDocument` (vectorstore.go lines 29-34): the score field is left at
its zero value. -/
def FromDocument (d : Doc) : VSDoc :=
  { pageContent := d.pageContent, metadata := d.metadata, score := 0 }

/-- `vectorstore.Filter`, a Go `map[string]interface{}`.  Go map iteration
order is unspecified, so a filter is modelled semantically, as its lookup
function. -/
abbrev VSFilter := String → Option MVal

/-- The facade options relevant to search (vectorstore.go lines 49-71 and
options.go): `ScoreThreshold` defaults to `0.0`; `Filters` may be `nil`. -/
structure VSOptions where
  scoreThreshold : Rat
  filters : Option VSFilter

/-- The filter-merging block of `VectorStore.SimilaritySearch`
(vectorstore.go lines 97-108): start from the default filters (if non-nil),
then write every entry of the request filter over it (if non-nil).  As a map,
the result maps `k` to the request's value when present, else the default's. -/
def mergeFilters (defaults req : Option VSFilter) : VSFilter := fun k =>
  let fromDefaults := match defaults with
    | some f => f k
    | none => none
  match req with
  | some f => ((f k).orElse (fun _ => fromDefaults))
  | none => fromDefaults

/-- `VectorStore.AddDocuments` (vectorstore.go lines 74-88), with the store
backend as an explicit state transformer `storeAdd` over a store state `σ`:
extract the texts, embed them in one `EmbedDocuments` call, and only then
hand the documents and vectors to the backend.  The result pairs the final
store state with the error, if any. -/
def VectorStore.AddDocumentsVS {σ ε : Type}
    (embedDocs : List String → Except ε (List Vec))
    (storeAdd : σ → List VSDoc → List Vec → σ × Option ε)
    (st : σ) (docs : List Doc) : σ × Option ε :=
  let texts := docs.map (·.pageContent)
  let vsDocs := docs.map FromDocument
  match embedDocs texts with
  | .error e => (st, some e)
  | .ok vectors => storeAdd st vsDocs vectors

/-- `VectorStore.SimilaritySearch` (vectorstore.go lines 91-124): embed the
query, merge filters, call the backend, then keep a result iff the threshold
is non-positive or its score reaches the threshold. -/
def VectorStore.SimilaritySearchVS {ε : Type} (opts : VSOptions)
    (embedQuery : String → Except ε Vec)
    (storeSearch : Vec → Int → VSFilter → Except ε (List VSDoc))
    (query : String) (limit : Int) (filter : Option VSFilter) :
    Except ε (List VSDoc) := do
  let vector ← embedQuery query
  let merged := mergeFilters opts.filters filter
  let vsDocs ← storeSearch vector limit merged
  .ok (vsDocs.filter (fun d =>
    decide (opts.scoreThreshold ≤ 0) || decide (d.score ≥ opts.scoreThreshold)))

/-- The reference definition of `SimilaritySearch` in the words of the spec:
embed the query; build the backend filter by taking every entry of the
store-level default filter and then overriding colliding keys with the
request filter's entries; call the backend with the given limit; keep only
results with `score ≥ threshold` when the threshold is positive, all of them
otherwise. -/
def SimilaritySearchSpec {ε : Type} (opts : VSOptions)
    (embedQuery : String → Except ε Vec)
    (storeSearch : Vec → Int → VSFilter → Except ε (List VSDoc))
    (query : String) (limit : Int) (filter : Option VSFilter) :
    Except ε (List VSDoc) := do
  let vector ← embedQuery query
  let merged : VSFilter := fun k =>
    match (match filter with | some f => f k | none => none) with
    | some v => some v
    | none => match opts.filters with | some f => f k | none => none
  let results ← storeSearch vector limit merged
  if 0 < opts.scoreThreshold then
    .ok (results.filter (fun d => decide (d.score ≥ opts.scoreThreshold)))
  else .ok results

/-! ## pgvector backend (`adapters/postgres/pgvector.go`, final version) -/

/-- `ErrorCode` constants (vectorstore errors file, lines 10-20). -/
def ErrCodeInvalidDimensions : String := "INVALID_DIMENSIONS"

/-- `VectorStoreError` (vectorstore errors file, lines 22-29); the wrapped
`Err` is dropped (it is `nil` for the dimension error). -/
structure VectorStoreError where
  code : String
  op : String
  store : String
  message : String
deriving DecidableEq, Repr

/-- `NewInvalidDimensionsError` (vectorstore errors file, lines 105-112). -/
def NewInvalidDimensionsError (store : String) (expected got : Int) :
    VectorStoreError :=
  { code := ErrCodeInvalidDimensions
    op := "AddDocuments"
    store := store
    message := s!"invalid vector dimensions: expected {expected}, got {got}" }

/-- One row of the pgvector table: content, metadata and embedding. -/
structure PGRow where
  content : String
  metadata : Metadata
  embedding : Vec
deriving DecidableEq, Repr

/-- The configuration of a `PGVectorStore` (pgvector.go lines 399-404);
the connection pool is replaced by the explicit row list passed to each
operation. -/
structure PGVectorStore where
  tableName : String
  dimension : Int
deriving DecidableEq, Repr

/-- `PGVectorStore.AddDocuments` (pgvector.go lines 551-581): validate every
vector's length against the configured dimension, returning
`NewInvalidDimensionsError` at the first mismatch; only after all vectors
pass are the rows inserted.  The result pairs the table contents with the
error, if any. -/
def PGVectorStore.AddDocumentsPG (p : PGVectorStore) (rows : List PGRow)
    (docs : List VSDoc) (vectors : List Vec) :
    List PGRow × Option VectorStoreError :=
  match vectors.find? (fun v => (v.length : Int) != p.dimension) with
  | some v =>
      (rows, some (NewInvalidDimensionsError "pgvector" p.dimension (v.length : Int)))
  | none =>
      (rows ++ List.zipWith (fun (d : VSDoc) v => PGRow.mk d.pageContent d.metadata v)
        docs vectors, none)

/-- The SQL predicate `metadata->>'k' = $n` of the pgvector filter clauses
(pgvector.go `buildWhereClause` / `buildDeleteWhereClause`): a row matches
iff the key is present and its text form equals the argument; a missing key
yields SQL `NULL`, which never compares equal. -/
def pgKeyMatches (m : Metadata) (k target : String) : Bool :=
  match m.lookupV k with
  | some v => v.asString == target
  | none => false

/-- A row satisfies a conjunctive equality filter, as in the pgvector
`WHERE` clauses. -/
def pgRowMatches (r : PGRow) (filter : List (String × String)) : Bool :=
  filter.all (fun kv => pgKeyMatches r.metadata kv.1 kv.2)

/-- `PGVectorStore.DocumentExists` (pgvector.go lines 729-759): for each
check document, extract `source` and `last_modified` from its metadata by
string type assertion (zero value `""` on failure), and probe for a row whose
`metadata->>'source'` and `metadata->>'last_modified'` equal them. -/
def PGVectorStore.DocumentExistsPG (rows : List PGRow) (docs : List Doc) :
    List Bool :=
  docs.map (fun d =>
    let source := ((d.metadata.lookupV "source").getD .other).asString
    let lastMod := ((d.metadata.lookupV "last_modified").getD .other).asString
    rows.any (fun r =>
      pgKeyMatches r.metadata "source" source &&
        pgKeyMatches r.metadata "last_modified" lastMod))

/-! ## Sync engine (`kb/kb.go`, final version, lines 368-427)

The knowledge base's embedder and splitter are function parameters; the
backing store is the pgvector row list.  `embedCalls` instruments the state
with the number of `EmbedDocuments` invocations made. -/

/-- `datasource.Document` (datasource.go lines 137-141). -/
structure DSDocument where
  content : String
  metadata : Metadata
  source : String
deriving DecidableEq, Repr

/-- The observable state of a knowledge base: the store's rows plus the
count of embedding calls made so far. -/
structure KBState where
  rows : List PGRow
  embedCalls : Nat
deriving DecidableEq, Repr

/-- An error aborting a sync run: a splitter error or a backend/embedder
error (abstract). -/
inductive KBError (ε : Type) where
  | split (e : SplitterError)
  | backend (e : ε)
deriving DecidableEq, Repr

/-- The in-model store `AddDocuments`: append one row per (document, vector)
pair.  Database failures are external and not modelled. -/
def storeAddRows {ε : Type} (rows : List PGRow) (docs : List VSDoc)
    (vectors : List Vec) : List PGRow × Option ε :=
  (rows ++ List.zipWith (fun (d : VSDoc) v => PGRow.mk d.pageContent d.metadata v)
    docs vectors, none)

/-- `KnowledgeBase.documentNeedsUpdate` (kb.go lines 392-407).  Despite its
name it returns whether a chunk with this `(source, last_modified)` pair
already exists.  Modelled from the spec: the `VectorStore.DocumentExists`
facade method called here is absent from the sources (only the pgvector
backend's `DocumentExists` is present); per spec section 6 it forwards to the
backend probe keyed on `(source, last_modified)` metadata equality. -/
def documentNeedsUpdate (st : KBState) (doc : DSDocument) : Bool :=
  let checkDoc : Doc :=
    { pageContent := ""
      metadata := [("source", .str doc.source),
        ("last_modified", (doc.metadata.lookupV "last_modified").getD .other)] }
  (PGVectorStore.DocumentExistsPG st.rows [checkDoc]).getD 0 false

/-- `KnowledgeBase.processData` (kb.go lines 409-427): stamp `source` into
the document's metadata, split into chunks, then embed and add them through
the facade.  No delete of previously indexed chunks is performed. -/
def processData {ε : Type}
    (split : String → Except SplitterError (List String))
    (embedDocs : List String → Except ε (List Vec))
    (st : KBState) (doc : DSDocument) : Except (KBError ε) KBState :=
  let md := doc.metadata.setKey "source" (.str doc.source)
  let docu : Doc := { pageContent := doc.content, metadata := md }
  match SplitDocuments split [docu] with
  | .error e => .error (.split e)
  | .ok chunks =>
    match VectorStore.AddDocumentsVS embedDocs storeAddRows st.rows chunks with
    | (_, some e) => .error (.backend e)
    | (rows', none) => .ok { rows := rows', embedCalls := st.embedCalls + 1 }

/-- One document-channel step of `KnowledgeBase.Sync` (kb.go lines 372-385):
probe first, and only process the document when the probe says it is not yet
indexed. -/
def syncStep {ε : Type}
    (split : String → Except SplitterError (List String))
    (embedDocs : List String → Except ε (List Vec))
    (st : KBState) (doc : DSDocument) : Except (KBError ε) KBState :=
  if documentNeedsUpdate st doc then .ok st
  else processData split embedDocs st doc

/-- The event stream a data source produces on its two channels: documents,
then either a clean close or an error. -/
inductive SyncEnd (ε : Type) where
  | closed
  | errored (e : ε)

/-- `KnowledgeBase.Sync` (kb.go lines 368-390): consume the stream one
document at a time, stopping at the first failing document; a closed channel
is success, an error-channel event aborts with that error. -/
def syncRun {ε : Type}
    (split : String → Except SplitterError (List String))
    (embedDocs : List String → Except ε (List Vec))
    (st : KBState) : List DSDocument → SyncEnd ε → Except (KBError ε) KBState
  | [], .closed => .ok st
  | [], .errored e => .error (.backend e)
  | doc :: rest, fin => do
    let st' ← syncStep split embedDocs st doc
    syncRun split embedDocs st' rest fin

/-! ## Claims -/

/-- C10: constructing a character splitter never fails and performs no
parameter validation: for every `chunkSize`, `chunkOverlap` and `separator`
- including zero and negative sizes and overlaps - the constructor succeeds
(it is a total function), records the numeric parameters unchanged, and
silently replaces an empty separator by a single space. -/
theorem claim_C10 (chunkSize chunkOverlap : Int) (separator : String) :
    (NewCharacterSplitter chunkSize chunkOverlap separator).chunkSize = chunkSize ∧
    (NewCharacterSplitter chunkSize chunkOverlap separator).chunkOverlap = chunkOverlap ∧
    (separator ≠ "" →
      (NewCharacterSplitter chunkSize chunkOverlap separator).separator = separator) ∧
    (NewCharacterSplitter chunkSize chunkOverlap "").separator = " " := by
  refine ⟨rfl, rfl, fun h => ?_, rfl⟩
  simp [NewCharacterSplitter, h]

/-- C10 witness: the degenerate configuration `(0, -5, "")` is accepted. -/
theorem claim_C10_witness :
    (NewCharacterSplitter 0 (-5) "x").chunkSize = 0 ∧
    (NewCharacterSplitter 0 (-5) "x").chunkOverlap = -5 ∧
    ("x" ≠ "" → (NewCharacterSplitter 0 (-5) "x").separator = "x") ∧
    (NewCharacterSplitter 0 (-5) "").separator = " " :=
  claim_C10 0 (-5) "x"

/-- C9: constructing a token splitter with non-positive `tokensPerChunk`,
negative `chunkOverlap`, or `chunkOverlap ≥ tokensPerChunk` returns a
`SplitterError` from op `new_tiktoken_splitter` whose message identifies the
invalid parameter, and the result does not depend on the encoding loader at
all: the error is returned before any encoding is loaded. -/
theorem claim_C9 (getEncoding getEncoding' : String → Except SplitterError Encoding)
    (tokensPerChunk chunkOverlap : Int) (model : String)
    (hinvalid : tokensPerChunk ≤ 0 ∨ chunkOverlap < 0 ∨
      chunkOverlap ≥ tokensPerChunk) :
    NewTiktokenSplitter getEncoding tokensPerChunk chunkOverlap model =
      NewTiktokenSplitter getEncoding' tokensPerChunk chunkOverlap model ∧
    ∃ e : SplitterError,
      NewTiktokenSplitter getEncoding tokensPerChunk chunkOverlap model = .error e ∧
      e.op = "new_tiktoken_splitter" ∧
      (tokensPerChunk ≤ 0 → e.message = "tokensPerChunk must be positive") ∧
      (0 < tokensPerChunk → chunkOverlap < 0 →
        e.message = "chunkOverlap must be non-negative") ∧
      (0 < tokensPerChunk → 0 ≤ chunkOverlap →
        e.message = "chunkOverlap must be less than tokensPerChunk") := by
  unfold NewTiktokenSplitter
  by_cases h1 : tokensPerChunk ≤ 0
  · simp only [if_pos h1]
    refine ⟨trivial, _, rfl, rfl, fun _ => rfl, ?_, ?_⟩
    · exact fun hp _ => absurd h1 (not_le.mpr hp)
    · exact fun hp _ => absurd h1 (not_le.mpr hp)
  · simp only [if_neg h1]
    by_cases h2 : chunkOverlap < 0
    · simp only [if_pos h2]
      refine ⟨trivial, _, rfl, rfl, fun h => absurd h h1, fun _ _ => rfl, ?_⟩
      exact fun _ hn => absurd h2 (not_lt.mpr hn)
    · simp only [if_neg h2]
      have h3 : chunkOverlap ≥ tokensPerChunk := by
        rcases hinvalid with h | h | h
        · exact absurd h h1
        · exact absurd h h2
        · exact h
      simp only [if_pos h3]
      exact ⟨trivial, _, rfl, rfl, fun h => absurd h h1, fun _ h => absurd h h2,
        fun _ _ => rfl⟩

/-- C9 witness: `tokensPerChunk = 0` is rejected identically under two
encoding loaders that disagree everywhere. -/
theorem claim_C9_witness :
    NewTiktokenSplitter (fun _ => .ok ⟨fun _ => [], fun _ => ""⟩) 0 0 "gpt-4" =
      NewTiktokenSplitter (fun _ => .error ⟨"x", "y", "z"⟩) 0 0 "gpt-4" ∧
    ∃ e : SplitterError,
      NewTiktokenSplitter (fun _ => .ok ⟨fun _ => [], fun _ => ""⟩) 0 0 "gpt-4" =
        .error e ∧
      e.op = "new_tiktoken_splitter" ∧
      ((0 : Int) ≤ 0 → e.message = "tokensPerChunk must be positive") ∧
      ((0 : Int) < 0 → (0 : Int) < 0 → e.message = "chunkOverlap must be non-negative") ∧
      ((0 : Int) < 0 → (0 : Int) ≤ 0 →
        e.message = "chunkOverlap must be less than tokensPerChunk") :=
  claim_C9 _ _ 0 0 "gpt-4" (Or.inl (by decide))

/-- C7: the pgvector `AddDocuments` with any vector whose length differs
from the configured dimension fails with the dimension-mismatch error naming
both the expected and the actual length, and writes nothing: the returned
table contents are exactly the prior rows. -/
theorem claim_C7 (p : PGVectorStore) (rows : List PGRow) (docs : List VSDoc)
    (vectors : List Vec)
    (hbad : ∃ w ∈ vectors, (w.length : Int) ≠ p.dimension) :
    ∃ v ∈ vectors, (v.length : Int) ≠ p.dimension ∧
      p.AddDocumentsPG rows docs vectors =
        (rows, some (NewInvalidDimensionsError "pgvector" p.dimension v.length)) ∧
      (NewInvalidDimensionsError "pgvector" p.dimension v.length).message =
        "invalid vector dimensions: expected " ++ toString p.dimension ++
          ", got " ++ toString (v.length : Int) ∧
      (NewInvalidDimensionsError "pgvector" p.dimension v.length).code =
        "INVALID_DIMENSIONS" := by
  have hfind : (vectors.find? (fun v => (v.length : Int) != p.dimension)).isSome := by
    rw [List.find?_isSome]
    obtain ⟨w, hw, hne⟩ := hbad
    exact ⟨w, hw, by simpa using hne⟩
  obtain ⟨v, hv⟩ := Option.isSome_iff_exists.mp hfind
  refine ⟨v, List.mem_of_find?_eq_some hv, by simpa using List.find?_some hv, ?_, ?_, rfl⟩
  · unfold PGVectorStore.AddDocumentsPG
    rw [hv]
  · show "invalid vector dimensions: expected " ++ toString p.dimension ++
      ", got " ++ toString (v.length : Int) ++ "" = _
    rw [String.append_empty]

/-- C7 witness: the spec's example, dimension 1536 against a length-512
vector. -/
theorem claim_C7_witness :
    ∃ v ∈ [List.replicate 512 (0 : Rat)], (v.length : Int) ≠ (1536 : Int) ∧
      PGVectorStore.AddDocumentsPG ⟨"documents", 1536⟩ [] []
          [List.replicate 512 (0 : Rat)] =
        ([], some (NewInvalidDimensionsError "pgvector" 1536 v.length)) ∧
      (NewInvalidDimensionsError "pgvector" 1536 v.length).message =
        "invalid vector dimensions: expected " ++ toString (1536 : Int) ++
          ", got " ++ toString (v.length : Int) ∧
      (NewInvalidDimensionsError "pgvector" 1536 v.length).code =
        "INVALID_DIMENSIONS" :=
  claim_C7 ⟨"documents", 1536⟩ [] [] [List.replicate 512 (0 : Rat)]
    ⟨List.replicate 512 (0 : Rat), List.mem_singleton_self _,
      by rw [List.length_replicate]; decide⟩

/-- C6: if embedding the batch fails, the facade's `AddDocuments` returns
that error and leaves the store state untouched, whatever the backend's add
operation would have done: no chunk from the batch is committed. -/
theorem claim_C6 {σ ε : Type} (embedDocs : List String → Except ε (List Vec))
    (storeAdd : σ → List VSDoc → List Vec → σ × Option ε) (st : σ)
    (docs : List Doc) (e : ε)
    (hembed : embedDocs (docs.map (·.pageContent)) = .error e) :
    VectorStore.AddDocumentsVS embedDocs storeAdd st docs = (st, some e) := by
  simp only [VectorStore.AddDocumentsVS, hembed]

/-- C6 witness: a failing embedder leaves a concrete one-row store alone. -/
theorem claim_C6_witness :
    VectorStore.AddDocumentsVS (fun _ => .error "embed failed")
      (storeAddRows (ε := String)) [PGRow.mk "r" [] []] [Doc.mk "chunk" []] =
      ([PGRow.mk "r" [] []], some "embed failed") :=
  claim_C6 _ _ _ _ "embed failed" rfl

/-- C4: when the existence probe keyed on `(source, last_modified)` reports
the document as already indexed, the sync engine skips it entirely: the step
returns the state unchanged - same store rows and the same embedding-call
count (zero new embedding calls, no adds, no deletes) - and the sync run
simply continues with the remaining stream. -/
theorem claim_C4 {ε : Type} (split : String → Except SplitterError (List String))
    (embedDocs : List String → Except ε (List Vec)) (st : KBState)
    (doc : DSDocument) (rest : List DSDocument) (fin : SyncEnd ε)
    (hprobe : documentNeedsUpdate st doc = true) :
    syncStep split embedDocs st doc = .ok st ∧
    syncRun split embedDocs st (doc :: rest) fin =
      syncRun split embedDocs st rest fin := by
  have hstep : syncStep split embedDocs st doc = .ok st := by
    simp [syncStep, hprobe]
  refine ⟨hstep, ?_⟩
  simp only [syncRun, hstep]
  rfl

/-- C4 witness: a source re-offered with its stored `last_modified` is
skipped: the concrete one-row state comes back untouched. -/
theorem claim_C4_witness :
    syncStep (fun t => .ok [t])
        (fun ts => (.ok (ts.map (fun _ => [(1 : Rat)])) : Except Unit _))
        ⟨[⟨"old content", [("source", .str "X"), ("last_modified", .str "1")], [1]⟩], 0⟩
        ⟨"same content", [("last_modified", .str "1")], "X"⟩ =
      .ok ⟨[⟨"old content", [("source", .str "X"), ("last_modified", .str "1")], [1]⟩], 0⟩ ∧
    syncRun (fun t => .ok [t])
        (fun ts => (.ok (ts.map (fun _ => [(1 : Rat)])) : Except Unit _))
        ⟨[⟨"old content", [("source", .str "X"), ("last_modified", .str "1")], [1]⟩], 0⟩
        [⟨"same content", [("last_modified", .str "1")], "X"⟩] .closed =
      syncRun (fun t => .ok [t])
        (fun ts => (.ok (ts.map (fun _ => [(1 : Rat)])) : Except Unit _))
        ⟨[⟨"old content", [("source", .str "X"), ("last_modified", .str "1")], [1]⟩], 0⟩
        [] .closed :=
  claim_C4 _ _ _ _ [] .closed (by decide)

/-- C1 counterexample: re-syncing source `X` after its `last_modified`
changed from `"1"` to `"2"` does not delete the previously indexed chunk:
processing the changed document only appends the new chunk, so the store
still contains the old row, and the query filter `{source: X}` matches the
chunks of both versions - refuting both the claimed targeted delete and the
claimed consequence that only latest-version chunks remain. -/
theorem claim_C1_counterexample :
    syncStep (fun t => .ok [t])
        (fun ts => (.ok (ts.map (fun _ => [(1 : Rat)])) : Except Unit _))
        ⟨[⟨"old content", [("source", .str "X"), ("last_modified", .str "1")], [1]⟩], 0⟩
        ⟨"new content", [("last_modified", .str "2")], "X"⟩ =
      .ok ⟨[⟨"old content", [("source", .str "X"), ("last_modified", .str "1")], [1]⟩,
            ⟨"new content", [("last_modified", .str "2"), ("source", .str "X")], [1]⟩], 1⟩ ∧
    (([⟨"old content", [("source", .str "X"), ("last_modified", .str "1")], [1]⟩,
       ⟨"new content", [("last_modified", .str "2"), ("source", .str "X")], [1]⟩] :
        List PGRow).filter (fun r => pgRowMatches r [("source", "X")])) =
      [⟨"old content", [("source", .str "X"), ("last_modified", .str "1")], [1]⟩,
       ⟨"new content", [("last_modified", .str "2"), ("source", .str "X")], [1]⟩] :=
  ⟨rfl, by decide⟩

/-- C1 as amended: processing an Unseen/Changed document stamps `source`
into its metadata, splits it, embeds the chunks in one call, and appends the
resulting rows to the store, deleting nothing: every previously indexed row
survives, so after re-syncing a changed source a query by `{source: X}` can
return chunks of the superseded version alongside the new ones. -/
theorem claim_C1_amended {ε : Type}
    (split : String → Except SplitterError (List String))
    (embedDocs : List String → Except ε (List Vec)) (st : KBState)
    (doc : DSDocument) (chunks : List Doc) (vectors : List Vec)
    (hprobe : documentNeedsUpdate st doc = false)
    (hsplit : SplitDocuments split
      [⟨doc.content, doc.metadata.setKey "source" (.str doc.source)⟩] = .ok chunks)
    (hembed : embedDocs (chunks.map (·.pageContent)) = .ok vectors) :
    syncStep split embedDocs st doc =
      .ok { rows := st.rows ++ List.zipWith
              (fun (c : Doc) v => PGRow.mk c.pageContent c.metadata v) chunks vectors
            embedCalls := st.embedCalls + 1 } ∧
    ∀ r ∈ st.rows, r ∈ st.rows ++ List.zipWith
      (fun (c : Doc) v => PGRow.mk c.pageContent c.metadata v) chunks vectors := by
  constructor
  · simp only [syncStep, hprobe, Bool.false_eq_true, if_false, processData, hsplit]
    simp only [VectorStore.AddDocumentsVS, hembed, storeAddRows]
    rw [List.zipWith_map_left]
    rfl
  · intro r hr
    exact List.mem_append_left _ hr

/-- C1 amended witness: the changed-source scenario of the counterexample,
derived by applying the amended theorem. -/
theorem claim_C1_amended_witness :
    syncStep (fun t => .ok [t])
        (fun ts => (.ok (ts.map (fun _ => [(1 : Rat)])) : Except Unit _))
        ⟨[⟨"old content", [("source", .str "X"), ("last_modified", .str "1")], [1]⟩], 0⟩
        ⟨"new content", [("last_modified", .str "2")], "X"⟩ =
      .ok { rows := [⟨"old content", [("source", .str "X"), ("last_modified", .str "1")], [1]⟩] ++
              List.zipWith (fun (c : Doc) v => PGRow.mk c.pageContent c.metadata v)
                [⟨"new content", [("last_modified", .str "2"), ("source", .str "X")]⟩] [[1]]
            embedCalls := 0 + 1 } ∧
    ∀ r ∈ [(⟨"old content", [("source", .str "X"), ("last_modified", .str "1")], [1]⟩ : PGRow)],
      r ∈ [(⟨"old content", [("source", .str "X"), ("last_modified", .str "1")], [1]⟩ : PGRow)] ++
        List.zipWith (fun (c : Doc) v => PGRow.mk c.pageContent c.metadata v)
          [⟨"new content", [("last_modified", .str "2"), ("source", .str "X")]⟩] [[1]] :=
  claim_C1_amended _ _ _ _ _ _ (by decide) rfl rfl

/-- The two-loop filter merge equals the spec's override map: request-scoped
keys win on collision, defaults fill the rest. -/
theorem mergeFilters_spec (defaults req : Option VSFilter) :
    mergeFilters defaults req = fun k =>
      match (match req with | some f => f k | none => none) with
      | some v => some v
      | none => match defaults with | some f => f k | none => none := by
  funext k
  cases req with
  | none => rfl
  | some f =>
    cases hf : f k with
    | none => simp [mergeFilters, hf, Option.orElse]
    | some v => simp [mergeFilters, hf, Option.orElse]

/-- C5: the facade's `SimilaritySearch` equals the reference definition
(embed, merge default filters under the request filter, search, then
threshold-filter), and - whenever the backend returns at most `limit`
results sorted best-first - the output has at most `limit` entries, is
sorted by descending score, and under a threshold of `0.8` contains no entry
scoring below `0.8`. -/
theorem claim_C5 {ε : Type} (opts : VSOptions)
    (embedQuery : String → Except ε Vec)
    (storeSearch : Vec → Int → VSFilter → Except ε (List VSDoc))
    (query : String) (limit : Int) (filter : Option VSFilter)
    (v : Vec) (backendResults : List VSDoc)
    (hembed : embedQuery query = .ok v)
    (hstore : storeSearch v limit (mergeFilters opts.filters filter) =
      .ok backendResults)
    (hlen : (backendResults.length : Int) ≤ limit)
    (hsorted : backendResults.Pairwise (fun a b => a.score ≥ b.score)) :
    VectorStore.SimilaritySearchVS opts embedQuery storeSearch query limit filter =
      SimilaritySearchSpec opts embedQuery storeSearch query limit filter ∧
    ∃ docs,
      VectorStore.SimilaritySearchVS opts embedQuery storeSearch query limit
          filter = .ok docs ∧
      (docs.length : Int) ≤ limit ∧
      docs.Pairwise (fun a b => a.score ≥ b.score) ∧
      (opts.scoreThreshold = 8/10 → ∀ d ∈ docs, (8 : Rat)/10 ≤ d.score) := by
  have hcode : VectorStore.SimilaritySearchVS opts embedQuery storeSearch query
      limit filter = .ok (backendResults.filter (fun d =>
        decide (opts.scoreThreshold ≤ 0) ||
          decide (d.score ≥ opts.scoreThreshold))) := by
    unfold VectorStore.SimilaritySearchVS
    rw [hembed]
    show (storeSearch v limit (mergeFilters opts.filters filter)).bind _ = _
    rw [hstore]
    rfl
  constructor
  · rw [hcode]
    unfold SimilaritySearchSpec
    rw [hembed]
    show _ = (storeSearch v limit _).bind _
    rw [← mergeFilters_spec, hstore]
    show Except.ok _ = if 0 < opts.scoreThreshold then _ else Except.ok _
    by_cases hth : opts.scoreThreshold ≤ 0
    · rw [if_neg (not_lt.mpr hth)]
      congr 1
      refine List.filter_eq_self.mpr (fun d _ => ?_)
      simp [hth]
    · rw [if_pos (not_le.mp hth)]
      congr 1
      refine List.filter_congr (fun d _ => ?_)
      simp [hth]
  · refine ⟨_, hcode, ?_, ?_, ?_⟩
    · exact le_trans (Int.ofNat_le.mpr (List.length_filter_le _ _)) hlen
    · exact hsorted.sublist (List.filter_sublist _)
    · intro hth d hd
      have hmem := (List.mem_filter.mp hd).2
      rw [hth] at hmem
      have h8 : ¬((8 : Rat)/10 ≤ 0) := by norm_num
      simpa [h8] using hmem

/-- C5 witness: threshold `0.8`, a two-result backend; the theorem applies
at this concrete search and keeps only the `0.9`-scoring result. -/
theorem claim_C5_witness :
    VectorStore.SimilaritySearchVS (ε := Unit)
        ⟨8/10, some (fun k => if k = "tenant" then some (.str "t1") else none)⟩
        (fun _ => .ok [1])
        (fun _ _ _ => .ok [⟨"a", [], 9/10⟩, ⟨"b", [], 7/10⟩]) "q" 5 none =
      SimilaritySearchSpec
        ⟨8/10, some (fun k => if k = "tenant" then some (.str "t1") else none)⟩
        (fun _ => .ok [1])
        (fun _ _ _ => .ok [⟨"a", [], 9/10⟩, ⟨"b", [], 7/10⟩]) "q" 5 none ∧
    ∃ docs,
      VectorStore.SimilaritySearchVS (ε := Unit)
          ⟨8/10, some (fun k => if k = "tenant" then some (.str "t1") else none)⟩
          (fun _ => .ok [1])
          (fun _ _ _ => .ok [⟨"a", [], 9/10⟩, ⟨"b", [], 7/10⟩]) "q" 5 none =
        .ok docs ∧
      (docs.length : Int) ≤ 5 ∧
      docs.Pairwise (fun a b => a.score ≥ b.score) ∧
      ((VSOptions.mk (8/10)
          (some (fun k => if k = "tenant" then some (.str "t1") else none))).scoreThreshold =
        8/10 → ∀ d ∈ docs, (8 : Rat)/10 ≤ d.score) :=
  claim_C5 _ _ _ "q" 5 none [1] [⟨"a", [], 9/10⟩, ⟨"b", [], 7/10⟩] rfl rfl
    (by decide) (by norm_num [List.pairwise_cons])

/-- C2 counterexample: chunk metadata is not an independent deep copy.
(i) `TiktokenSplitter.SplitDocuments` hands both chunks the very map
(address 0) of the source document, so writing key `k` through one chunk's
metadata is seen through the other chunk's metadata.  (ii) the generic
helper's `copyMetadata` copy is shallow: both fresh chunk maps (addresses 2
and 3) still hold `ref 1` under `nested`, so mutating the nested map at
address 1 through one chunk's nested value changes what the sibling chunk
(and the original document) observe. -/
theorem claim_C2_counterexample :
    TiktokenSplitDocumentsH (fun _ => .ok ["c1", "c2"])
        ⟨[[("nested", .ref 1), ("k", .prim "a")], [("x", .prim "old")]]⟩
        [⟨"text", 0⟩] =
      .ok (⟨[[("nested", .ref 1), ("k", .prim "a")], [("x", .prim "old")]]⟩,
        [⟨"c1", 0⟩, ⟨"c2", 0⟩]) ∧
    ((Heap.writeKey ⟨[[("nested", .ref 1), ("k", .prim "a")], [("x", .prim "old")]]⟩
        0 "k" (.prim "b")).get 0).lookupV "k" = some (.prim "b") ∧
    ((⟨[[("nested", .ref 1), ("k", .prim "a")], [("x", .prim "old")]]⟩ : Heap).get
        0).lookupV "k" = some (.prim "a") ∧
    SplitDocumentsH (fun _ => .ok ["c1", "c2"])
        ⟨[[("nested", .ref 1), ("k", .prim "a")], [("x", .prim "old")]]⟩
        [⟨"text", 0⟩] =
      .ok (⟨[[("nested", .ref 1), ("k", .prim "a")], [("x", .prim "old")],
             [("nested", .ref 1), ("k", .prim "a")],
             [("nested", .ref 1), ("k", .prim "a")]]⟩,
        [⟨"c1", 2⟩, ⟨"c2", 3⟩]) ∧
    ((⟨[[("nested", .ref 1), ("k", .prim "a")], [("x", .prim "old")],
        [("nested", .ref 1), ("k", .prim "a")],
        [("nested", .ref 1), ("k", .prim "a")]]⟩ : Heap).get 2).lookupV "nested" =
      some (.ref 1) ∧
    ((⟨[[("nested", .ref 1), ("k", .prim "a")], [("x", .prim "old")],
        [("nested", .ref 1), ("k", .prim "a")],
        [("nested", .ref 1), ("k", .prim "a")]]⟩ : Heap).get 3).lookupV "nested" =
      some (.ref 1) ∧
    ((Heap.writeKey ⟨[[("nested", .ref 1), ("k", .prim "a")], [("x", .prim "old")],
        [("nested", .ref 1), ("k", .prim "a")],
        [("nested", .ref 1), ("k", .prim "a")]]⟩ 1 "x" (.prim "new")).get
      1).lookupV "x" = some (.prim "new") ∧
    ((⟨[[("nested", .ref 1), ("k", .prim "a")], [("x", .prim "old")],
        [("nested", .ref 1), ("k", .prim "a")],
        [("nested", .ref 1), ("k", .prim "a")]]⟩ : Heap).get 1).lookupV "x" =
      some (.prim "old") :=
  ⟨rfl, rfl, rfl, rfl, rfl, rfl, rfl, rfl⟩

/-- Writing a key of the map at one address leaves the map at any other
address unchanged. -/
theorem heap_get_writeKey_ne (h : Heap) (a b : Addr) (hab : a ≠ b)
    (k : String) (v : GoVal) : (h.writeKey a k v).get b = h.get b := by
  unfold Heap.writeKey Heap.setMap Heap.get
  simp only
  rw [List.get?_set_ne _ _ hab]

/-- Consecutive address ranges concatenate. -/
theorem heapRange_append (s n m : Nat) :
    List.range' s n ++ List.range' (s + n) m = List.range' s (n + m) := by
  have h := List.range'_append s n m 1
  rw [Nat.one_mul] at h
  rw [h, Nat.add_comm n m]

/-- Allocation returns the stored map at the fresh address. -/
theorem heap_get_alloc_self (h : Heap) (m : GoMap) :
    (h.alloc m).1.get (h.alloc m).2 = m := by
  unfold Heap.alloc Heap.get
  simp [List.get?_concat_length]

/-- Allocation does not change the map at any existing address. -/
theorem heap_get_alloc_lt (h : Heap) (m : GoMap) (a : Addr)
    (ha : a < h.maps.length) : (h.alloc m).1.get a = h.get a := by
  unfold Heap.alloc Heap.get
  simp only [List.get?_eq_getElem?]
  rw [List.getElem?_append_left ha]

/-- Allocation grows the heap by one map. -/
theorem heap_alloc_length (h : Heap) (m : GoMap) :
    (h.alloc m).1.maps.length = h.maps.length + 1 := by
  simp [Heap.alloc]

/-- The address returned by allocation is the old heap size. -/
theorem heap_alloc_addr (h : Heap) (m : GoMap) : (h.alloc m).2 = h.maps.length :=
  rfl

/-- The shallow metadata copy grows the heap by one map. -/
theorem copyMetadataH_length (h : Heap) (a : Addr) :
    (copyMetadataH h a).1.maps.length = h.maps.length + 1 :=
  heap_alloc_length h _

/-- The shallow metadata copy returns the next fresh address. -/
theorem copyMetadataH_addr (h : Heap) (a : Addr) :
    (copyMetadataH h a).2 = h.maps.length :=
  rfl

/-- The fresh map holds exactly the source map's entries. -/
theorem copyMetadataH_get_self (h : Heap) (a : Addr) :
    (copyMetadataH h a).1.get (copyMetadataH h a).2 = h.get a :=
  heap_get_alloc_self h _

/-- The shallow metadata copy changes no existing map. -/
theorem copyMetadataH_get_lt (h : Heap) (a b : Addr) (hb : b < h.maps.length) :
    (copyMetadataH h a).1.get b = h.get b :=
  heap_get_alloc_lt h _ b hb

/-- The chunk loop allocates exactly one map per chunk string. -/
theorem createChunksForDoc_length (meta : Addr) :
    ∀ (cs : List String) (h : Heap),
      (createChunksForDoc h meta cs).1.maps.length = h.maps.length + cs.length ∧
      (createChunksForDoc h meta cs).2.length = cs.length := by
  intro cs
  induction cs with
  | nil => intro h; simp [createChunksForDoc]
  | cons c cs ih =>
    intro h
    obtain ⟨ih1, ih2⟩ := ih (copyMetadataH h meta).1
    simp only [createChunksForDoc]
    refine ⟨?_, ?_⟩
    · rw [ih1, copyMetadataH_length]
      simp
      omega
    · simp [ih2]

/-- The chunk loop hands out exactly the next `cs.length` fresh addresses,
in order. -/
theorem createChunksForDoc_addrs (meta : Addr) :
    ∀ (cs : List String) (h : Heap),
      (createChunksForDoc h meta cs).2.map (·.metadata) =
        List.range' h.maps.length cs.length := by
  intro cs
  induction cs with
  | nil => intro h; simp [createChunksForDoc]
  | cons c cs ih =>
    intro h
    simp only [createChunksForDoc, List.map_cons]
    rw [ih (copyMetadataH h meta).1, copyMetadataH_length, copyMetadataH_addr]
    rfl

/-- The chunk loop changes no pre-existing map. -/
theorem createChunksForDoc_get_lt (meta : Addr) :
    ∀ (cs : List String) (h : Heap) (a : Addr), a < h.maps.length →
      (createChunksForDoc h meta cs).1.get a = h.get a := by
  intro cs
  induction cs with
  | nil => intro h a _; simp [createChunksForDoc]
  | cons c cs ih =>
    intro h a ha
    simp only [createChunksForDoc]
    have hlt : a < (copyMetadataH h meta).1.maps.length := by
      rw [copyMetadataH_length]
      exact Nat.lt_succ_of_lt ha
    rw [ih (copyMetadataH h meta).1 a hlt]
    exact copyMetadataH_get_lt h meta a ha

/-- Every chunk map produced by the loop holds (a shallow copy of) the
entries of the source metadata map. -/
theorem createChunksForDoc_content (meta : Addr) :
    ∀ (cs : List String) (h : Heap), meta < h.maps.length →
      ∀ d ∈ (createChunksForDoc h meta cs).2,
        (createChunksForDoc h meta cs).1.get d.metadata = h.get meta := by
  intro cs
  induction cs with
  | nil => intro h _ d hd; simp [createChunksForDoc] at hd
  | cons c cs ih =>
    intro h hmeta d hd
    simp only [createChunksForDoc, List.mem_cons] at hd ⊢
    have hlen1 : (copyMetadataH h meta).1.maps.length = h.maps.length + 1 :=
      copyMetadataH_length h meta
    rcases hd with hd | hd
    · subst hd
      simp only
      have h2lt : (copyMetadataH h meta).2 < (copyMetadataH h meta).1.maps.length := by
        rw [copyMetadataH_addr, hlen1]
        exact Nat.lt_succ_self _
      rw [createChunksForDoc_get_lt meta cs (copyMetadataH h meta).1
        (copyMetadataH h meta).2 h2lt]
      exact copyMetadataH_get_self h meta
    · have hm1 : meta < (copyMetadataH h meta).1.maps.length := by
        rw [hlen1]
        exact Nat.lt_succ_of_lt hmeta
      have hrec := ih (copyMetadataH h meta).1 hm1 d hd
      rw [hrec, copyMetadataH_get_lt h meta meta hmeta]

/-- Specification of the per-text loop of the heap-model `CreateDocuments`:
on success it allocates one fresh map per chunk - the chunk metadata
addresses are exactly the next addresses, in order - and leaves every
pre-existing map unchanged. -/
theorem createDocsLoopH_spec (split : String → Except SplitterError (List String)) :
    ∀ (pairs : List (String × Addr)) (h h' : Heap) (cs : List DocH),
      createDocsLoopH split h pairs = .ok (h', cs) →
      h'.maps.length = h.maps.length + cs.length ∧
      cs.map (·.metadata) = List.range' h.maps.length cs.length ∧
      (∀ a, a < h.maps.length → h'.get a = h.get a) := by
  intro pairs
  induction pairs with
  | nil =>
    intro h h' cs hrun
    simp only [createDocsLoopH] at hrun
    obtain ⟨rfl, rfl⟩ : h = h' ∧ [] = cs := by
      injection hrun with hpair
      exact ⟨congrArg Prod.fst hpair, congrArg Prod.snd hpair⟩
    simp
  | cons pr rest ih =>
    intro h h' cs hrun
    obtain ⟨t, m⟩ := pr
    simp only [createDocsLoopH] at hrun
    cases hsplit : split t with
    | error e => rw [hsplit] at hrun; exact absurd hrun (by simp)
    | ok strs =>
      rw [hsplit] at hrun
      simp only at hrun
      cases htail : createDocsLoopH split (createChunksForDoc h m strs).1 rest with
      | error e => rw [htail] at hrun; exact absurd hrun (by simp)
      | ok tailRes =>
        rw [htail] at hrun
        simp only at hrun
        obtain ⟨rfl, rfl⟩ : tailRes.1 = h' ∧
            (createChunksForDoc h m strs).2 ++ tailRes.2 = cs := by
          injection hrun with hpair
          exact ⟨congrArg Prod.fst hpair, congrArg Prod.snd hpair⟩
        obtain ⟨hstepLen, hstepCount⟩ := createChunksForDoc_length m strs h
        obtain ⟨ihLen, ihAddrs, ihGet⟩ :=
          ih (createChunksForDoc h m strs).1 tailRes.1 tailRes.2 htail
        refine ⟨?_, ?_, ?_⟩
        · rw [ihLen, hstepLen, List.length_append]
          omega
        · rw [List.map_append, createChunksForDoc_addrs m strs h, ihAddrs,
            hstepLen, List.length_append, ← hstepCount]
          exact heapRange_append _ _ _
        · intro a ha
          rw [ihGet a (by rw [hstepLen]; exact Nat.lt_add_right _ ha)]
          exact createChunksForDoc_get_lt m strs h a ha

/-- `TiktokenSplitter.SplitDocuments` copies nothing: on success the heap is
unchanged and every chunk's metadata address is one of the source documents'
metadata addresses. -/
theorem tiktokenSplitDocumentsH_alias
    (splitText : String → Except SplitterError (List String)) :
    ∀ (docs : List DocH) (h h₂ : Heap) (tchunks : List DocH),
      TiktokenSplitDocumentsH splitText h docs = .ok (h₂, tchunks) →
      h₂ = h ∧ ∀ c ∈ tchunks, ∃ d ∈ docs, c.metadata = d.metadata := by
  intro docs
  induction docs with
  | nil =>
    intro h h₂ tchunks hrun
    simp only [TiktokenSplitDocumentsH] at hrun
    obtain ⟨rfl, rfl⟩ : h = h₂ ∧ [] = tchunks := by
      injection hrun with hpair
      exact ⟨congrArg Prod.fst hpair, congrArg Prod.snd hpair⟩
    simp
  | cons doc rest ih =>
    intro h h₂ tchunks hrun
    simp only [TiktokenSplitDocumentsH] at hrun
    cases hsplit : splitText doc.pageContent with
    | error e => rw [hsplit] at hrun; exact absurd hrun (by simp)
    | ok chunks =>
      rw [hsplit] at hrun
      simp only at hrun
      cases htail : TiktokenSplitDocumentsH splitText h rest with
      | error e => rw [htail] at hrun; exact absurd hrun (by simp)
      | ok tailRes =>
        rw [htail] at hrun
        simp only at hrun
        obtain ⟨rfl, rfl⟩ : tailRes.1 = h₂ ∧
            chunks.map (fun c => DocH.mk c doc.metadata) ++ tailRes.2 = tchunks := by
          injection hrun with hpair
          exact ⟨congrArg Prod.fst hpair, congrArg Prod.snd hpair⟩
        obtain ⟨hheap, htails⟩ := ih h tailRes.1 tailRes.2 htail
        refine ⟨hheap, ?_⟩
        intro c hc
        rcases List.mem_append.mp hc with hc | hc
        · obtain ⟨s, _, rfl⟩ := List.mem_map.mp hc
          exact ⟨doc, List.mem_cons_self _ _, rfl⟩
        · obtain ⟨d, hd, he⟩ := htails c hc
          exact ⟨d, List.mem_cons_of_mem _ hd, he⟩

/-- In the single-document run every chunk's fresh map holds exactly the
entries of the document's metadata map: a shallow copy. -/
theorem createDocsLoopH_single_content
    (split : String → Except SplitterError (List String)) (t : String)
    (m : Addr) (h h' : Heap) (cs : List DocH) (hm : m < h.maps.length)
    (hrun : createDocsLoopH split h [(t, m)] = .ok (h', cs)) :
    ∀ d ∈ cs, h'.get d.metadata = h.get m := by
  simp only [createDocsLoopH] at hrun
  cases hsplit : split t with
  | error e => rw [hsplit] at hrun; exact absurd hrun (by simp)
  | ok strs =>
    rw [hsplit] at hrun
    simp only at hrun
    obtain ⟨rfl, rfl⟩ : (createChunksForDoc h m strs).1 = h' ∧
        (createChunksForDoc h m strs).2 ++ [] = cs := by
      injection hrun with hpair
      exact ⟨congrArg Prod.fst hpair, congrArg Prod.snd hpair⟩
    intro d hd
    rw [List.append_nil] at hd
    exact createChunksForDoc_content m strs h hm d hd

/-- C2 as amended: the generic document-level helper gives every chunk a
fresh top-level metadata map (pairwise-distinct new addresses, shallow
copies of the source entries), so replacing a top-level entry through one
chunk's metadata never affects any other chunk's metadata map or any source
document's metadata map; nested (reference-valued) entries, however, remain
shared between the copies, and the token splitter's own `SplitDocuments`
performs no copy at all - its chunks alias the source documents' maps. -/
theorem claim_C2_amended (split : String → Except SplitterError (List String))
    (h : Heap) (docs : List DocH) (h' : Heap) (chunks : List DocH)
    (hw : ∀ d ∈ docs, d.metadata < h.maps.length)
    (hrun : SplitDocumentsH split h docs = .ok (h', chunks)) :
    chunks.map (·.metadata) = List.range' h.maps.length chunks.length ∧
    (chunks.map (·.metadata)).Nodup ∧
    (∀ c ∈ chunks, ∀ d ∈ docs, c.metadata ≠ d.metadata) ∧
    (∀ c₁ ∈ chunks, ∀ c₂ ∈ chunks, c₁.metadata ≠ c₂.metadata →
      ∀ k v, (h'.writeKey c₁.metadata k v).get c₂.metadata = h'.get c₂.metadata) ∧
    (∀ c ∈ chunks, ∀ d ∈ docs, ∀ k v,
      (h'.writeKey c.metadata k v).get d.metadata = h'.get d.metadata) ∧
    (∀ d0, docs = [d0] → ∀ c ∈ chunks, h'.get c.metadata = h.get d0.metadata) ∧
    (∀ splitText h₂ tchunks,
      TiktokenSplitDocumentsH splitText h docs = .ok (h₂, tchunks) →
      h₂ = h ∧ ∀ c ∈ tchunks, ∃ d ∈ docs, c.metadata = d.metadata) := by
  have haddrs : chunks.map (·.metadata) = List.range' h.maps.length chunks.length ∧
      (∀ c ∈ chunks, h.maps.length ≤ c.metadata) ∧
      (∀ d0, docs = [d0] → ∀ c ∈ chunks, h'.get c.metadata = h.get d0.metadata) := by
    cases docs with
    | nil =>
      have hre : SplitDocumentsH split h ([] : List DocH) = .ok (h, []) := rfl
      rw [hre] at hrun
      obtain ⟨rfl, rfl⟩ : h = h' ∧ [] = chunks := by
        injection hrun with hpair
        exact ⟨congrArg Prod.fst hpair, congrArg Prod.snd hpair⟩
      refine ⟨by simp, by simp, ?_⟩
      intro d0 habs
      exact absurd habs (by simp)
    | cons d0 ds =>
      have hne : ((d0 :: ds).map (·.metadata)).length ≠ 0 := by simp
      simp only [SplitDocumentsH, CreateDocumentsH, if_neg hne] at hrun
      rw [if_neg (by simp)] at hrun
      have hspec := createDocsLoopH_spec split
        (((d0 :: ds).map (·.pageContent)).zip ((d0 :: ds).map (·.metadata)))
        h h' chunks hrun
      refine ⟨hspec.2.1, ?_, ?_⟩
      · intro c hc
        have hmem : c.metadata ∈ List.range' h.maps.length chunks.length := by
          rw [← hspec.2.1]
          exact List.mem_map_of_mem _ hc
        exact (List.mem_range'_1.mp hmem).1
      · intro d1 heq c hc
        obtain ⟨rfl, rfl⟩ : d0 = d1 ∧ ds = [] := by
          injection heq with h1 h2
          exact ⟨h1, h2⟩
        refine createDocsLoopH_single_content split d0.pageContent d0.metadata
          h h' chunks (hw d0 (List.mem_singleton_self _)) ?_ c hc
        simpa using hrun
  have hfresh : ∀ c ∈ chunks, h.maps.length ≤ c.metadata := haddrs.2.1
  have hdiff : ∀ c ∈ chunks, ∀ d ∈ docs, c.metadata ≠ d.metadata := by
    intro c hc d hd heq
    have h1 := hfresh c hc
    have h2 := hw d hd
    rw [heq] at h1
    exact absurd h2 (not_lt.mpr h1)
  refine ⟨haddrs.1, ?_, hdiff, ?_, ?_, haddrs.2.2, ?_⟩
  · rw [haddrs.1]
    exact List.nodup_range' _ _ 1 Nat.one_pos
  · intro c1 _ c2 _ hne k v
    exact heap_get_writeKey_ne h' _ _ hne k v
  · intro c hc d hd k v
    exact heap_get_writeKey_ne h' _ _ (hdiff c hc d hd) k v
  · intro splitText h₂ tchunks ht
    exact tiktokenSplitDocumentsH_alias splitText docs h h₂ tchunks ht

/-- C2 amended witness: on the concrete two-chunk split of the
counterexample heap the chunk addresses are fresh and pairwise distinct. -/
theorem claim_C2_amended_witness :
    (([⟨"c1", (2 : Addr)⟩, ⟨"c2", (3 : Addr)⟩] : List DocH).map (·.metadata)).Nodup :=
  (claim_C2_amended (fun _ => .ok ["c1", "c2"])
    ⟨[[("nested", .ref 1), ("k", .prim "a")], [("x", .prim "old")]]⟩
    [⟨"text", 0⟩]
    ⟨[[("nested", .ref 1), ("k", .prim "a")], [("x", .prim "old")],
      [("nested", .ref 1), ("k", .prim "a")],
      [("nested", .ref 1), ("k", .prim "a")]]⟩
    [⟨"c1", 2⟩, ⟨"c2", 3⟩] (by decide) rfl).2.1

/-- C3 counterexample: the character splitter can emit an empty-string
chunk.  With the default separator (empty separator replaced by a space) and
the all-whitespace input `"\t"`, the final buffer flush trims to the empty
string, so `SplitText` returns `[""]` - an empty chunk. -/
theorem claim_C3_counterexample :
    (NewCharacterSplitter 100 0 "").SplitText "\t" = [""] ∧
    "" ∈ (NewCharacterSplitter 100 0 "").SplitText "\t" := by
  exact ⟨rfl, by rw [show (NewCharacterSplitter 100 0 "").SplitText "\t" = [""] from rfl]; simp⟩

/-- Dropping a prefix from a list ending in an element that fails the
predicate keeps that last element. -/
theorem dropWhile_concat_neg {α : Type} (p : α → Bool) (a : α) (ha : p a = false) :
    ∀ xs : List α, List.dropWhile p (xs ++ [a]) = List.dropWhile p xs ++ [a] := by
  intro xs
  induction xs with
  | nil => simp [List.dropWhile, ha]
  | cons x xs ih =>
    by_cases hx : p x
    · simp [List.dropWhile, hx, ih]
    · simp [List.dropWhile, hx]

/-- Go's `TrimSpace` is idempotent at the character-list level. -/
theorem trimSpaceList_idem (l : List Char) :
    trimSpaceList (trimSpaceList l) = trimSpaceList l := by
  unfold trimSpaceList
  cases hu : l.dropWhile isSpaceChar with
  | nil => simp
  | cons a u' =>
    have ha : isSpaceChar a = false := by
      have hhd := List.head?_dropWhile_not isSpaceChar l
      rw [hu] at hhd
      simpa using hhd
    have hv : ((a :: u').reverse).dropWhile isSpaceChar =
        u'.reverse.dropWhile isSpaceChar ++ [a] := by
      rw [List.reverse_cons, dropWhile_concat_neg isSpaceChar a ha]
    rw [hv, List.reverse_append, List.reverse_singleton, List.singleton_append,
      List.dropWhile_cons_of_neg (by simp [ha]), List.reverse_cons,
      List.reverse_reverse, dropWhile_concat_neg isSpaceChar a ha,
      List.dropWhile_idempotent, List.reverse_append, List.reverse_singleton,
      List.singleton_append]

/-- Go's `TrimSpace` is idempotent. -/
theorem goTrimSpace_idem (s : String) : goTrimSpace (goTrimSpace s) = goTrimSpace s := by
  unfold goTrimSpace
  rw [show (String.mk (trimSpaceList s.toList)).toList = trimSpaceList s.toList from rfl,
    trimSpaceList_idem]

/-- Every chunk the character-splitter loop appends is a trimmed string, so
trimmed-ness of the accumulated chunk list is invariant. -/
theorem charSplitLoop_trim (cs : CharacterSplitter) :
    ∀ (parts chunks : List String) (current : String),
      (∀ c ∈ chunks, goTrimSpace c = c) →
      ∀ c ∈ (charSplitLoop cs parts chunks current).1, goTrimSpace c = c := by
  intro parts
  induction parts with
  | nil =>
    intro chunks current hinv c hc
    simp only [charSplitLoop] at hc
    exact hinv c hc
  | cons p ps ih =>
    intro chunks current hinv c hc
    simp only [charSplitLoop] at hc
    by_cases hcond : ((current.length : Int) + (p.length : Int) + 1 > cs.chunkSize ∧
        current.length > 0)
    · rw [if_pos hcond] at hc
      refine ih _ _ ?_ c hc
      intro c' hc'
      rcases List.mem_append.mp hc' with h | h
      · exact hinv c' h
      · rw [List.mem_singleton.mp h]
        exact goTrimSpace_idem current
    · rw [if_neg hcond] at hc
      exact ih _ _ hinv c hc

/-- Every chunk `CharacterSplitter.SplitText` emits is trimmed. -/
theorem charSplitText_trimmed (cs : CharacterSplitter) (text : String) :
    ∀ c ∈ cs.SplitText text, goTrimSpace c = c := by
  intro c hc
  unfold CharacterSplitter.SplitText at hc
  by_cases htext : text = ""
  · rw [if_pos htext] at hc
    simp at hc
  · rw [if_neg htext] at hc
    simp only at hc
    by_cases hflush : (charSplitLoop cs (goSplit text cs.separator) [] "").2.length > 0
    · rw [if_pos hflush] at hc
      rcases List.mem_append.mp hc with h | h
      · exact charSplitLoop_trim cs _ [] "" (by simp) c h
      · rw [List.mem_singleton.mp h]
        exact goTrimSpace_idem _
    · rw [if_neg hflush] at hc
      exact charSplitLoop_trim cs _ [] "" (by simp) c hc

/-- With `0 < tokensPerChunk` and `chunkOverlap < tokensPerChunk`, any fuel
covering `ceil((len - start)/(tokensPerChunk - chunkOverlap))` iterations
makes the window loop succeed, and every at-least-as-large fuel computes the
same chunks: the safety check is unreachable and larger fuel is never used. -/
theorem splitTextLoop_fuel (tpc ov : Int) (h1 : 0 < tpc) (h3 : ov < tpc)
    (dec : List Nat → String) (tokens : List Nat) :
    ∀ (fuel : Nat) (start : Int) (chunks : List String) (fuel' : Nat),
      0 ≤ start →
      (tokens.length : Int) - start ≤ fuel * (tpc - ov) →
      fuel ≤ fuel' →
      ∃ cs, splitTextLoop tpc ov dec tokens start fuel chunks = .ok cs ∧
        splitTextLoop tpc ov dec tokens start fuel' chunks = .ok cs := by
  intro fuel
  induction fuel with
  | zero =>
    intro start chunks fuel' hs hb _
    have hge : ¬ (start < (tokens.length : Int)) := by
      simp only [Nat.cast_zero, Int.zero_mul, zero_mul] at hb
      omega
    refine ⟨chunks, ?_, ?_⟩
    · simp only [splitTextLoop]
      rw [if_neg hge]
    · cases fuel' with
      | zero => simp only [splitTextLoop]; rw [if_neg hge]
      | succ g => simp only [splitTextLoop]; rw [if_neg hge]
  | succ f ihf =>
    intro start chunks fuel' hs hb hle
    obtain ⟨f', rfl⟩ : ∃ g, fuel' = g + 1 := ⟨fuel' - 1, by omega⟩
    simp only [splitTextLoop]
    by_cases hlt : start < (tokens.length : Int)
    · rw [if_pos hlt, if_pos hlt]
      by_cases hbrk : ((decide (min (start + tpc) (tokens.length : Int) =
          (tokens.length : Int)) ||
          decide (tiktokenNextStart tpc ov tokens start ≥
            min (start + tpc) (tokens.length : Int))) = true)
      · rw [if_pos hbrk, if_pos hbrk]
        exact ⟨_, rfl, rfl⟩
      · rw [if_neg hbrk, if_neg hbrk]
        have hnob := hbrk
        rw [Bool.or_eq_true, not_or] at hnob
        have hne : ¬ (min (start + tpc) (tokens.length : Int) =
            (tokens.length : Int)) := by
          simpa using hnob.1
        have hmin : min (start + tpc) (tokens.length : Int) = start + tpc := by
          rcases min_le_iff.mp (le_refl (min (start + tpc) (tokens.length : Int)))
            with h | h
          · exact min_eq_left (by omega)
          · have : min (start + tpc) (tokens.length : Int) ≤ (tokens.length : Int) :=
              min_le_right _ _
            have hlow : (tokens.length : Int) ≤ min (start + tpc) (tokens.length : Int) := h
            exact absurd (le_antisymm this hlow) hne
        have hstart' : tiktokenNextStart tpc ov tokens start = start + (tpc - ov) := by
          unfold tiktokenNextStart
          rw [hmin]
          ring
        rw [hstart']
        refine ihf (start + (tpc - ov)) _ f' (by omega) ?_ (by omega)
        have hb' : (tokens.length : Int) - start ≤ ((f : Int) + 1) * (tpc - ov) := by
          have := hb
          push_cast at this
          exact this
        have hmul : ((f : Int) + 1) * (tpc - ov) = (f : Int) * (tpc - ov) + (tpc - ov) := by
          ring
        rw [hmul] at hb'
        push_cast
        omega
    · rw [if_neg hlt, if_neg hlt]
      exact ⟨chunks, rfl, rfl⟩

/-- Forward progress: while the window has not reached the end of the token
stream, the next start computed by the loop strictly exceeds the current
one. -/
theorem tiktokenNextStart_advance (tpc ov : Int) (h3 : ov < tpc)
    (tokens : List Nat) (start : Int)
    (h : start + tpc < (tokens.length : Int)) :
    start < tiktokenNextStart tpc ov tokens start := by
  unfold tiktokenNextStart
  rw [min_eq_left (by omega)]
  omega

/-- Every window the loop decodes is non-empty, so with a tokenizer whose
decode of a non-empty token list is non-empty, no emitted chunk is the empty
string. -/
theorem splitTextLoop_nonempty (tpc ov : Int) (h1 : 0 < tpc) (h2 : 0 ≤ ov)
    (h3 : ov < tpc) (dec : List Nat → String) (tokens : List Nat)
    (hdec : ∀ ts : List Nat, ts ≠ [] → dec ts ≠ "") :
    ∀ (fuel : Nat) (start : Int) (chunks cs : List String),
      0 ≤ start →
      (∀ c ∈ chunks, c ≠ "") →
      splitTextLoop tpc ov dec tokens start fuel chunks = .ok cs →
      ∀ c ∈ cs, c ≠ "" := by
  intro fuel
  induction fuel with
  | zero =>
    intro start chunks cs hs hinv hrun
    simp only [splitTextLoop] at hrun
    by_cases hlt : start < (tokens.length : Int)
    · rw [if_pos hlt] at hrun
      exact absurd hrun (by simp)
    · rw [if_neg hlt] at hrun
      obtain rfl : chunks = cs := by injection hrun
      exact hinv
  | succ f ihf =>
    intro start chunks cs hs hinv hrun
    simp only [splitTextLoop] at hrun
    by_cases hlt : start < (tokens.length : Int)
    · rw [if_pos hlt] at hrun
      have hslice : tokenSlice tokens start
          (min (start + tpc) (tokens.length : Int)) ≠ [] := by
        have hpos : 0 < (tokenSlice tokens start
            (min (start + tpc) (tokens.length : Int))).length := by
          unfold tokenSlice
          rw [List.length_take, List.length_drop]
          omega
        exact List.ne_nil_of_length_pos hpos
      have hinv' : ∀ c ∈ chunks ++
          [dec (tokenSlice tokens start (min (start + tpc) (tokens.length : Int)))],
          c ≠ "" := by
        intro c hc
        rcases List.mem_append.mp hc with h | h
        · exact hinv c h
        · rw [List.mem_singleton.mp h]
          exact hdec _ hslice
      by_cases hbrk : ((decide (min (start + tpc) (tokens.length : Int) =
          (tokens.length : Int)) ||
          decide (tiktokenNextStart tpc ov tokens start ≥
            min (start + tpc) (tokens.length : Int))) = true)
      · rw [if_pos hbrk] at hrun
        obtain rfl : chunks ++
            [dec (tokenSlice tokens start (min (start + tpc) (tokens.length : Int)))] =
            cs := by injection hrun
        exact hinv'
      · rw [if_neg hbrk] at hrun
        have hnob := hbrk
        rw [Bool.or_eq_true, not_or] at hnob
        have hne : ¬ (min (start + tpc) (tokens.length : Int) =
            (tokens.length : Int)) := by simpa using hnob.1
        have hmin : min (start + tpc) (tokens.length : Int) = start + tpc := by
          rcases le_total (start + tpc) (tokens.length : Int) with h | h
          · exact min_eq_left h
          · exact absurd (min_eq_right h) hne
        have hstart' : tiktokenNextStart tpc ov tokens start = start + (tpc - ov) := by
          unfold tiktokenNextStart
          rw [hmin]
          ring
        rw [hstart'] at hrun
        exact ihf (start + (tpc - ov)) _ cs (by omega) hinv' hrun
    · rw [if_neg hlt] at hrun
      obtain rfl : chunks = cs := by injection hrun
      exact hinv

/-- `TiktokenSplitter.SplitText` always succeeds for a validly configured
splitter, and - whenever the tokenizer never decodes a non-empty window to
the empty string - emits no empty chunk. -/
theorem tiktokenSplitText_ok (tpc ov : Int) (h1 : 0 < tpc) (h2 : 0 ≤ ov)
    (h3 : ov < tpc) (enc : Encoding) (model text : String) :
    ∃ chunks, TiktokenSplitter.SplitText ⟨tpc, ov, model, enc⟩ text = .ok chunks ∧
      ((∀ ts : List Nat, ts ≠ [] → enc.decode ts ≠ "") →
        ∀ c ∈ chunks, c ≠ "") := by
  unfold TiktokenSplitter.SplitText
  by_cases ht : text = ""
  · rw [if_pos ht]
    exact ⟨[], rfl, by simp⟩
  · rw [if_neg ht]
    simp only
    by_cases h0 : (enc.encode text).length = 0
    · rw [if_pos h0]
      exact ⟨[], rfl, by simp⟩
    · rw [if_neg h0]
      have hstep : (1 : Int) ≤ tpc - ov := by omega
      have hb : ((enc.encode text).length : Int) - 0 ≤
          ((enc.encode text).length : Nat) * (tpc - ov) := by
        have := le_mul_of_one_le_right
          (by positivity : (0 : Int) ≤ ((enc.encode text).length : Nat)) hstep
        omega
      obtain ⟨cs, hrun, _⟩ := splitTextLoop_fuel tpc ov h1 h3 enc.decode
        (enc.encode text) (enc.encode text).length 0 [] (enc.encode text).length
        (le_refl 0) hb (le_refl _)
      refine ⟨cs, hrun, fun hdec => ?_⟩
      exact splitTextLoop_nonempty tpc ov h1 h2 h3 enc.decode (enc.encode text)
        hdec (enc.encode text).length 0 [] cs (le_refl 0) (by simp) hrun

/-- C3 as amended: `SplitText` always succeeds (the character splitter's
error is always nil and the token splitter's safety check is unreachable for
valid configurations); every chunk the character splitter emits is trimmed
of leading and trailing whitespace; and the token splitter never emits an
empty-string chunk (given that the tokenizer decodes non-empty windows to
non-empty text).  The character splitter, however, can emit an empty-string
chunk (see the counterexample), so the original blanket no-empty-chunk claim
holds only for the token splitter. -/
theorem claim_C3_amended :
    (∀ (size ov : Int) (sep text : String),
      ∀ c ∈ (NewCharacterSplitter size ov sep).SplitText text,
        goTrimSpace c = c) ∧
    (∀ (tpc ov : Int), 0 < tpc → 0 ≤ ov → ov < tpc →
      ∀ (enc : Encoding) (model text : String),
      ∃ chunks,
        TiktokenSplitter.SplitText ⟨tpc, ov, model, enc⟩ text = .ok chunks ∧
        ((∀ ts : List Nat, ts ≠ [] → enc.decode ts ≠ "") →
          ∀ c ∈ chunks, c ≠ "")) := by
  constructor
  · intro size ov sep text
    exact charSplitText_trimmed _ text
  · intro tpc ov h1 h2 h3 enc model text
    exact tiktokenSplitText_ok tpc ov h1 h2 h3 enc model text

/-- C3 amended witness: concrete instances of both halves - the chunk
`"aa bb cc"` of a concrete character split is trimmed, and a concrete valid
token splitter splits without error into non-empty chunks. -/
theorem claim_C3_amended_witness :
    (∀ c ∈ (NewCharacterSplitter 10 3 " ").SplitText "aa bb cc dd",
      goTrimSpace c = c) ∧
    ∃ chunks,
      TiktokenSplitter.SplitText
          ⟨3, 1, "gpt-4", ⟨fun t => List.range t.length, fun ts => "x"⟩⟩
          "abcde" = .ok chunks ∧
      ((∀ ts : List Nat, ts ≠ [] →
          (fun (_ : List Nat) => "x") ts ≠ "") → ∀ c ∈ chunks, c ≠ "") :=
  ⟨claim_C3_amended.1 10 3 " " "aa bb cc dd",
    claim_C3_amended.2 3 1 (by decide) (by decide) (by decide)
      ⟨fun t => List.range t.length, fun ts => "x"⟩ "gpt-4" "abcde"⟩

/-- C8: for a valid token-splitter configuration, `SplitText` terminates
without error; the window loop already succeeds - with the same resulting
chunks as the actual run - when given only
`ceil(tokenCount / (tokensPerChunk - chunkOverlap))` iterations of fuel; and
the window start strictly advances whenever the window has not reached the
end of the token stream. -/
theorem claim_C8 (tpc ov : Int) (h1 : 0 < tpc) (h2 : 0 ≤ ov) (h3 : ov < tpc)
    (enc : Encoding) (model text : String) :
    (∃ cs, TiktokenSplitter.SplitText ⟨tpc, ov, model, enc⟩ text = .ok cs) ∧
    (text ≠ "" → (enc.encode text).length ≠ 0 →
      ∃ cs, TiktokenSplitter.SplitText ⟨tpc, ov, model, enc⟩ text = .ok cs ∧
        splitTextLoop tpc ov enc.decode (enc.encode text) 0
          (((enc.encode text).length + (tpc - ov).toNat - 1) / (tpc - ov).toNat)
          [] = .ok cs) ∧
    (∀ start : Int, start + tpc < ((enc.encode text).length : Int) →
      start < tiktokenNextStart tpc ov (enc.encode text) start) := by
  refine ⟨?_, ?_, ?_⟩
  · obtain ⟨cs, hok, _⟩ := tiktokenSplitText_ok tpc ov h1 h2 h3 enc model text
    exact ⟨cs, hok⟩
  · intro ht h0
    have hstep1 : 1 ≤ (tpc - ov).toNat := by omega
    have hceil : (enc.encode text).length ≤
        (((enc.encode text).length + (tpc - ov).toNat - 1) / (tpc - ov).toNat) *
          (tpc - ov).toNat := by
      set n := (enc.encode text).length with hn
      set step := (tpc - ov).toNat with hstep
      have hn1 : 1 ≤ n := by omega
      have hq : (n + step - 1) / step = (n - 1) / step + 1 := by
        have : n + step - 1 = (n - 1) + step := by omega
        rw [this, Nat.add_div_right _ (by omega)]
      rw [hq, Nat.succ_mul]
      have hdm := Nat.div_add_mod (n - 1) step
      have hmlt : (n - 1) % step < step := Nat.mod_lt _ (by omega)
      rw [Nat.mul_comm] at hdm
      generalize hA : (n - 1) / step * step = A at hdm ⊢
      omega
    have hle : (((enc.encode text).length + (tpc - ov).toNat - 1) /
        (tpc - ov).toNat) ≤ (enc.encode text).length := by
      set n := (enc.encode text).length with hn
      set step := (tpc - ov).toNat with hstep
      have hq : (n + step - 1) / step = (n - 1) / step + 1 := by
        have : n + step - 1 = (n - 1) + step := by omega
        rw [this, Nat.add_div_right _ (by omega)]
      rw [hq]
      have := Nat.div_le_self (n - 1) step
      omega
    have hb : ((enc.encode text).length : Int) - 0 ≤
        ((((enc.encode text).length + (tpc - ov).toNat - 1) / (tpc - ov).toNat) : Nat) *
          (tpc - ov) := by
      have hcast : (((tpc - ov).toNat : Int)) = tpc - ov := Int.toNat_of_nonneg (by omega)
      have := hceil
      have h2' : (((enc.encode text).length : Int)) ≤
          ((((enc.encode text).length + (tpc - ov).toNat - 1) / (tpc - ov).toNat : Nat) : Int) *
            (((tpc - ov).toNat : Int)) := by
        push_cast
        exact_mod_cast this
      rw [hcast] at h2'
      omega
    obtain ⟨cs, hrunCeil, hrunFull⟩ := splitTextLoop_fuel tpc ov h1 h3 enc.decode
      (enc.encode text)
      (((enc.encode text).length + (tpc - ov).toNat - 1) / (tpc - ov).toNat)
      0 [] (enc.encode text).length (le_refl 0) hb hle
    refine ⟨cs, ?_, hrunCeil⟩
    unfold TiktokenSplitter.SplitText
    rw [if_neg ht]
    simp only
    rw [if_neg h0]
    exact hrunFull
  · intro start hstart
    exact tiktokenNextStart_advance tpc ov h3 (enc.encode text) start hstart

/-- C8 witness: six tokens, window 3, overlap 1 - `ceil(6/2) = 3` fuel
units suffice and match the actual run. -/
theorem claim_C8_witness :
    (∃ cs, TiktokenSplitter.SplitText
      ⟨3, 1, "gpt-4", ⟨fun t => List.range t.length, fun ts => "x"⟩⟩
      "abcdef" = .ok cs) ∧
    ("abcdef" ≠ "" →
      ((fun (t : String) => List.range t.length) "abcdef").length ≠ 0 →
      ∃ cs, TiktokenSplitter.SplitText
          ⟨3, 1, "gpt-4", ⟨fun t => List.range t.length, fun ts => "x"⟩⟩
          "abcdef" = .ok cs ∧
        splitTextLoop 3 1 (fun (_ : List Nat) => "x")
          ((fun (t : String) => List.range t.length) "abcdef") 0
          ((((fun (t : String) => List.range t.length) "abcdef").length +
            ((3 : Int) - 1).toNat - 1) / ((3 : Int) - 1).toNat) [] = .ok cs) ∧
    (∀ start : Int,
      start + 3 < (((fun (t : String) => List.range t.length) "abcdef").length : Int) →
      start < tiktokenNextStart 3 1
        ((fun (t : String) => List.range t.length) "abcdef") start) :=
  claim_C8 3 1 (by decide) (by decide) (by decide)
    ⟨fun t => List.range t.length, fun ts => "x"⟩ "gpt-4" "abcdef"
